import Mathlib

/-!
Shallow embedding of the Whiskey Hollow character engine
(src/character.py and src/dice.py) and proofs about it.

Randomness is modelled by explicit oracles: a die stream
`g : Nat → Int` gives the result of the i-th call to the random
integer generator, and choice oracles `Nat → Nat` give the index
picked by each uniform choice among a candidate list.
-/

/- ## String helpers

Python membership tests of a keyword in a lowercased item name are
embedded as a substring search over the list of lowered characters. -/

/-- Prefix-match of a character pattern at the head of a list. -/
def matchesAt : List Char → List Char → Bool
  | [], _ => true
  | _ :: _, [] => false
  | p :: ps, c :: cs => p == c && matchesAt ps cs

/-- Substring search: does the pattern occur anywhere in the list? -/
def hasSubSeq (pat : List Char) : List Char → Bool
  | [] => pat.isEmpty
  | c :: cs => matchesAt pat (c :: cs) || hasSubSeq pat cs

/-- Embedding of Python str.lower over the characters of a string. -/
def pyLower (s : String) : List Char := s.toList.map Char.toLower

/-- Embedding of the test `pat in item_name.lower()`. -/
def nameHasKeyword (item : String) (pat : String) : Bool :=
  hasSubSeq pat.toList (pyLower item)

/- ## The Character data model (class Character, src/character.py) -/

/-- The fields of class Character in src/character.py.  Numeric fields
are Python ints, embedded as Int; skills and inventory are dicts
embedded as association lists in insertion order. -/
structure Character where
  name : String
  age : Int
  level : Int
  experience : Int
  dollars : Int
  skill_points : Int
  vigor : Int
  finesse : Int
  smarts : Int
  skills : List (String × Int)
  hit_points : Int
  max_hit_points : Int
  movement : Int
  inventory : List (String × Int)
  base_inventory_slots : Int
  bonus_inventory_slots : Int
  weapon : String
  armor : String
  location : String
  deriving Repr, DecidableEq

/- ## Dict-as-association-list operations (Python dict semantics:
unique keys, insertion order preserved, lookup by key). -/

/-- Lookup of a key in an association list (first match). -/
def invLookup : List (String × Int) → String → Option Int
  | [], _ => none
  | (k, v) :: rest, key => if k = key then some v else invLookup rest key

/-- Replace the value stored at a present key (first match). -/
def invUpdate : List (String × Int) → String → Int → List (String × Int)
  | [], _, _ => []
  | (k, v) :: rest, key, val =>
      if k = key then (k, val) :: rest else (k, v) :: invUpdate rest key val

/-- Delete a key from an association list (first match). -/
def invErase : List (String × Int) → String → List (String × Int)
  | [], _ => []
  | (k, v) :: rest, key => if k = key then rest else (k, v) :: invErase rest key

/- ## Inventory capacity (src/character.py lines 699-782) -/

/-- Embedding of Character._get_item_slot_usage. -/
def getItemSlotUsage (item_name : String) : Int :=
  if nameHasKeyword item_name "rifle" || nameHasKeyword item_name "shotgun" then 3
  else if nameHasKeyword item_name "pistol" || nameHasKeyword item_name "revolver" then 2
  else if nameHasKeyword item_name "armor" || nameHasKeyword item_name "vest" then 2
  else if nameHasKeyword item_name "backpack" || nameHasKeyword item_name "saddlebags" then 0
  else 1

/-- Embedding of Character.get_total_inventory_slots. -/
def get_total_inventory_slots (c : Character) : Int :=
  c.base_inventory_slots + c.bonus_inventory_slots

/-- Embedding of Character.get_used_inventory_slots. -/
def get_used_inventory_slots (c : Character) : Int :=
  (c.inventory.map (fun kv => getItemSlotUsage kv.1 * kv.2)).sum

/-- Embedding of Character.get_available_inventory_slots. -/
def get_available_inventory_slots (c : Character) : Int :=
  get_total_inventory_slots c - get_used_inventory_slots c

/-- Embedding of Character.can_add_item. -/
def can_add_item (c : Character) (item_name : String) (quantity : Int) : Bool :=
  get_available_inventory_slots c ≥ getItemSlotUsage item_name * quantity

/-- Embedding of Character.add_item.  Returns the updated character and
the boolean result of the Python method. -/
def add_item (c : Character) (item_name : String) (quantity : Int) :
    Character × Bool :=
  if ¬ can_add_item c item_name quantity then (c, false)
  else
    let inv :=
      match invLookup c.inventory item_name with
      | some q => invUpdate c.inventory item_name (q + quantity)
      | none => c.inventory ++ [(item_name, quantity)]
    let c1 := { c with inventory := inv }
    let c2 :=
      if nameHasKeyword item_name "backpack" then
        { c1 with bonus_inventory_slots := c1.bonus_inventory_slots + 5 }
      else if nameHasKeyword item_name "saddlebags" then
        { c1 with bonus_inventory_slots := c1.bonus_inventory_slots + 8 }
      else c1
    (c2, true)

/-- Embedding of Character.remove_item. -/
def remove_item (c : Character) (item_name : String) (quantity : Int) :
    Character × Bool :=
  match invLookup c.inventory item_name with
  | none => (c, false)
  | some q =>
    if q < quantity then (c, false)
    else
      let c1 :=
        if nameHasKeyword item_name "backpack" then
          { c with bonus_inventory_slots := c.bonus_inventory_slots - 5 * quantity }
        else if nameHasKeyword item_name "saddlebags" then
          { c with bonus_inventory_slots := c.bonus_inventory_slots - 8 * quantity }
        else c
      let newq := q - quantity
      let inv :=
        if newq ≤ 0 then invErase c1.inventory item_name
        else invUpdate c1.inventory item_name newq
      ({ c1 with inventory := inv }, true)

/-- A concrete character used for concrete evaluations: the state of a
fresh Character after setting the three attributes to 10 and running
calculate_derived_stats. -/
def testChar : Character :=
  { name := "Tex"
    age := 25
    level := 1
    experience := 0
    dollars := 0
    skill_points := 0
    vigor := 10
    finesse := 10
    smarts := 10
    skills := []
    hit_points := 10
    max_hit_points := 10
    movement := 10
    inventory := []
    base_inventory_slots := 10
    bonus_inventory_slots := 0
    weapon := "Unarmed"
    armor := "Clothes"
    location := "Whiskey Hollow" }

/- ## Dice engine (src/dice.py) -/

/-- The dictionary returned by roll_dice in src/dice.py. -/
structure RollResult where
  result : Int
  rolls : List Int
  kept_rolls : List Int
  dropped_rolls : List Int
  total_before_modifier : Int
  modifier : Int
  deriving Repr, DecidableEq

/-- Descending sort, embedding Python sorted(xs, reverse=True). -/
def sortDescend (l : List Int) : List Int := l.insertionSort (fun a b => a ≥ b)

/-- Embedding of roll_dice from src/dice.py.  The per-die resolution
(_roll_single_die) is abstracted by the oracle g, which gives the total
of the i-th die; ValueError is embedded as Except.error with the
message raised by the source. -/
def roll_dice (num_dice sides : Int) (drop_lowest drop_highest : Nat)
    (modifier : Int) (g : Nat → Int) : Except String RollResult :=
  if num_dice ≤ 0 then .error "Number of dice must be positive"
  else if sides ≤ 0 then .error "Number of sides must be positive"
  else if (drop_lowest : Int) + drop_highest ≥ num_dice then
    .error "Cannot drop more dice than rolled"
  else
    let all_rolls := (List.range num_dice.toNat).map g
    let sorted_rolls := sortDescend all_rolls
    let kept_rolls :=
      if drop_lowest > 0 then
        (sorted_rolls.drop drop_highest).take
          (sorted_rolls.length - drop_lowest - drop_highest)
      else sorted_rolls.drop drop_highest
    let dropped_rolls :=
      (if drop_highest > 0 then sorted_rolls.take drop_highest else []) ++
      (if drop_lowest > 0 then
          sorted_rolls.drop (sorted_rolls.length - drop_lowest) else [])
    let total_before_modifier := kept_rolls.sum
    .ok { result := total_before_modifier + modifier
          rolls := all_rolls
          kept_rolls := kept_rolls
          dropped_rolls := dropped_rolls
          total_before_modifier := total_before_modifier
          modifier := modifier }

/-- Embedding of _roll_single_die from src/dice.py, with explicit fuel
for the unbounded while loop.  The oracle g gives the successive values
of random.randint(1, sides) starting at stream position pos; the result
is the final die total with the next stream position, or none when the
fuel runs out before the loop exits. -/
def rollSingleDie (sides : Int) (reroll_below : Option Int) (exploding : Bool)
    (g : Nat → Int) : Nat → Nat → Int → Option (Int × Nat)
  | 0, _, _ => none
  | fuel + 1, pos, total =>
      let roll := g pos
      if reroll_below.isSome ∧ roll ≤ reroll_below.getD 0 then
        rollSingleDie sides reroll_below exploding g fuel (pos + 1) total
      else
        let total1 := total + roll
        if exploding ∧ roll = sides then
          rollSingleDie sides reroll_below exploding g fuel (pos + 1) total1
        else some (total1, pos + 1)

/- ## Attributes, aging and derived stats (src/character.py lines 59-272) -/

/-- The three core attribute names, in the order of the Python list
used by _apply_random_attribute_boost and _lose_random_attribute. -/
inductive AttrName
  | vigor
  | finesse
  | smarts
  deriving Repr, DecidableEq

/-- Embedding of getattr over the fixed attribute-name list. -/
def getAttr (c : Character) : AttrName → Int
  | .vigor => c.vigor
  | .finesse => c.finesse
  | .smarts => c.smarts

/-- Embedding of setattr over the fixed attribute-name list. -/
def setAttr (c : Character) (v : Int) : AttrName → Character
  | .vigor => { c with vigor := v }
  | .finesse => { c with finesse := v }
  | .smarts => { c with smarts := v }

/-- The Python list of candidate attributes, in source order. -/
def attrNames : List AttrName := [.vigor, .finesse, .smarts]

/-- Embedding of Character.get_attribute_modifier.  Python floor
division // becomes Int.fdiv. -/
def get_attribute_modifier (attr : Int) : Int := (attr - 10).fdiv 2

/-- Embedding of Character._apply_random_attribute_boost.  The uniform
random.choice over the candidate list is modelled by an index oracle,
reduced modulo the list length. -/
def applyRandomAttributeBoost (c : Character) (choice : Nat) : Character :=
  let available := attrNames.filter (fun a => getAttr c a < 18)
  if available.isEmpty then c
  else
    let chosen := available.getD (choice % available.length) .vigor
    setAttr c (getAttr c chosen + 1) chosen

/-- Embedding of Character._lose_random_attribute. -/
def loseRandomAttribute (c : Character) (choice : Nat) : Character :=
  let available := attrNames.filter (fun a => getAttr c a > 3)
  if available.isEmpty then c
  else
    let chosen := available.getD (choice % available.length) .vigor
    setAttr c (getAttr c chosen - 1) chosen

/-- Embedding of Character._make_vigor_test.  The die stream g supplies
the successive random.randint(1, 6) results starting at position pos;
lossChoice models the uniform choice made on failure.  Returns the
updated character with the next stream position. -/
def makeVigorTest (c : Character) (g : Nat → Int) (pos : Nat)
    (lossChoice : Nat) : Character × Nat :=
  let vigor_modifier := get_attribute_modifier c.vigor
  let dice_to_roll := (max 1 (vigor_modifier + 1)).toNat
  let rolls := (List.range dice_to_roll).map (fun i => g (pos + i))
  let successes := rolls.filter (fun r => r ≥ 5)
  if successes.isEmpty then (loseRandomAttribute c lossChoice, pos + dice_to_roll)
  else (c, pos + dice_to_roll)

/-- The loop `for i in range(vigor_tests): self._make_vigor_test(i+1)`
of apply_age_effects: n tests applied sequentially, threading the
character state and the die-stream position; lc gives the loss choice
of each test, indexed from idx. -/
def applyVigorTests (g : Nat → Int) (lc : Nat → Nat) :
    Nat → Nat → Character → Nat → Character × Nat
  | 0, _, c, pos => (c, pos)
  | n + 1, idx, c, pos =>
      let r := makeVigorTest c g pos (lc idx)
      applyVigorTests g lc n (idx + 1) r.1 r.2

/-- The loop applying attribute boosts in apply_age_effects; bc gives
the boost choice of each iteration, indexed from idx. -/
def applyAttributeBoosts (bc : Nat → Nat) :
    Nat → Nat → Character → Character
  | 0, _, c => c
  | n + 1, idx, c =>
      applyAttributeBoosts bc n (idx + 1) (applyRandomAttributeBoost c (bc idx))

/-- Embedding of Character.calculate_derived_stats. -/
def calculate_derived_stats (c : Character) : Character :=
  let mhp := (c.vigor + c.finesse + c.smarts).fdiv 3
  { c with max_hit_points := mhp
           hit_points := mhp
           base_inventory_slots := c.vigor
           movement := (c.vigor + c.finesse).fdiv 2 }

/-- The age table of apply_age_effects (the if/elif chain on self.age,
src/character.py lines 82-129): skill points, attribute boosts and
vigor tests granted at each age, or none when no branch matches. -/
def ageEntry (age : Int) : Option (Int × Nat × Nat) :=
  if 14 ≤ age ∧ age ≤ 22 then some (5, 2, 0)
  else if 23 ≤ age ∧ age ≤ 26 then some (5, 3, 0)
  else if 27 ≤ age ∧ age ≤ 30 then some (6, 2, 0)
  else if 31 ≤ age ∧ age ≤ 34 then some (7, 1, 1)
  else if 35 ≤ age ∧ age ≤ 48 then some (9, 0, 3)
  else if 49 ≤ age ∧ age ≤ 52 then some (11, 0, 5)
  else if 53 ≤ age ∧ age ≤ 56 then some (13, 0, 7)
  else if age = 57 then some (15, 0, 9)
  else none

/-- The mutating body of apply_age_effects before the final
recomputation of derived stats: grant skill points, apply the boosts,
then apply the vigor tests sequentially. -/
def agingCore (c : Character) (bc : Nat → Nat) (g : Nat → Int)
    (lc : Nat → Nat) (pos : Nat) : Character :=
  match ageEntry c.age with
  | none => c
  | some (sp, boosts, tests) =>
      let c1 := { c with skill_points := c.skill_points + sp }
      let c2 := applyAttributeBoosts bc boosts 0 c1
      (applyVigorTests g lc tests 0 c2 pos).1

/-- Embedding of Character.apply_age_effects: the early return outside
[14, 57], then the aging body, then one call to
calculate_derived_stats. -/
def apply_age_effects (c : Character) (bc : Nat → Nat) (g : Nat → Int)
    (lc : Nat → Nat) (pos : Nat) : Character :=
  if ¬ (14 ≤ c.age ∧ c.age ≤ 57) then c
  else calculate_derived_stats (agingCore c bc g lc pos)

/- ## Skill-point allocation (Character.allocate_skill_points,
src/character.py lines 274-407) -/

/-- One parsed user input of the allocation loop. -/
inductive AllocInput
  | finish
  | select (choice : Nat)
  | help
  | invalid
  deriving Repr, DecidableEq

/-- One iteration of the allocation loop body, given the external skill
catalog (the keys of skill_manager.get_skill_list() in order).  Returns
the updated character and true when the loop continues, false when it
breaks out. -/
def allocStep (catalog : List String) (c : Character) :
    AllocInput → Character × Bool
  | .help => (c, true)
  | .invalid => (c, true)
  | .finish => if c.skill_points > 0 then (c, true) else (c, false)
  | .select choice =>
      if 1 ≤ choice ∧ choice ≤ catalog.length then
        let skill_key := catalog.getD (choice - 1) ""
        let current_level := (invLookup c.skills skill_key).getD 0
        if current_level ≥ 3 then (c, true)
        else
          let skills :=
            match invLookup c.skills skill_key with
            | some _ => invUpdate c.skills skill_key (current_level + 1)
            | none => c.skills ++ [(skill_key, current_level + 1)]
          ({ c with skills := skills, skill_points := c.skill_points - 1 }, true)
      else (c, true)

/-- The guard of each branch of the if/elif age chain of
apply_age_effects, in source order, as predicates on the age. -/
def ageConds : List (Int → Bool) :=
  [fun a => decide (14 ≤ a ∧ a ≤ 22),
   fun a => decide (23 ≤ a ∧ a ≤ 26),
   fun a => decide (27 ≤ a ∧ a ≤ 30),
   fun a => decide (31 ≤ a ∧ a ≤ 34),
   fun a => decide (35 ≤ a ∧ a ≤ 48),
   fun a => decide (49 ≤ a ∧ a ≤ 52),
   fun a => decide (53 ≤ a ∧ a ≤ 56),
   fun a => decide (a = 57)]

/-- The four derived-stat fields of a character, bundled so that their
joint preservation can be stated as one equation. -/
def derivedFields (c : Character) : Int × Int × Int × Int :=
  (c.hit_points, c.max_hit_points, c.movement, c.base_inventory_slots)

/-- One attribute mutation performed during aging: a boost from
_apply_random_attribute_boost or a loss from _lose_random_attribute,
each with its choice-oracle value. -/
inductive AgeChange
  | boost (choice : Nat)
  | lose (choice : Nat)
  deriving Repr, DecidableEq

/-- Apply one aging attribute mutation. -/
def applyAgeChange (c : Character) : AgeChange → Character
  | .boost ch => applyRandomAttributeBoost c ch
  | .lose ch => loseRandomAttribute c ch

/-- Apply a sequence of aging attribute mutations in order. -/
def applyAgeChanges (c : Character) (l : List AgeChange) : Character :=
  l.foldl applyAgeChange c

/-- Spec-side description of the kept dice, written from the spec
wording for comparison with the embedded roll_dice: the per-die totals
sorted descending with the first drop_highest and the last drop_lowest
entries removed. -/
def specKeptRolls (rolls : List Int) (drop_lowest drop_highest : Nat) : List Int :=
  ((sortDescend rolls).drop drop_highest).take
    (rolls.length - drop_lowest - drop_highest)

/-- Whether a roll_dice outcome is the raised ValueError. -/
def isErrorResult (e : Except String RollResult) : Bool :=
  match e with
  | .error _ => true
  | .ok _ => false

/- ## Claims C1 and C2: quantity handling of capacity containers -/

/-- Claim C1: the claim says a successful add of a capacity container
raises bonus_slots by the per-unit amount times the quantity.  The
code adds the flat per-unit amount once per call: adding 2 backpacks
in one call raises bonus_inventory_slots by 5, not by 10. -/
theorem add_item_backpack_bonus_not_proportional :
    (add_item testChar "backpack" 2).2 = true ∧
    nameHasKeyword "backpack" "backpack" = true ∧
    testChar.bonus_inventory_slots = 0 ∧
    (add_item testChar "backpack" 2).1.bonus_inventory_slots = 5 ∧
    (add_item testChar "backpack" 2).1.bonus_inventory_slots ≠ 5 * 2 := by
  decide

/-- Claim C2: the claim says a successful add of a container followed
by a remove of the same quantity restores the original state.  The
code adds a flat 5 bonus slots for any backpack add but removes
5 * quantity on removal, so add 2 then remove 2 leaves
bonus_inventory_slots at -5 instead of the original 0. -/
theorem add_then_remove_backpack_not_restored :
    (remove_item (add_item testChar "backpack" 2).1 "backpack" 2).2 = true ∧
    (remove_item (add_item testChar "backpack" 2).1 "backpack" 2).1.inventory
        = testChar.inventory ∧
    testChar.bonus_inventory_slots = 0 ∧
    (remove_item (add_item testChar "backpack" 2).1 "backpack" 2).1.bonus_inventory_slots
        = -5 ∧
    (remove_item (add_item testChar "backpack" 2).1 "backpack" 2).1 ≠ testChar := by
  decide

/- ## Claim C8: the finish gate of the allocation loop -/

/-- Claim C8: selecting 0 (finish) in the allocation loop is rejected,
with no state change, whenever the skill-point budget is positive, and
accepted (the loop breaks) when the budget is zero. -/
theorem finish_requires_zero_budget (catalog : List String) (c : Character) :
    (0 < c.skill_points → allocStep catalog c .finish = (c, true)) ∧
    (c.skill_points = 0 → allocStep catalog c .finish = (c, false)) := by
  constructor
  · intro h
    simp [allocStep, h]
  · intro h
    simp [allocStep, h]

/-- Concrete instance of finish_requires_zero_budget. -/
theorem finish_requires_zero_budget_witness :
    allocStep [] { testChar with skill_points := 3 } .finish
        = ({ testChar with skill_points := 3 }, true) ∧
    allocStep [] testChar .finish = (testChar, false) :=
  ⟨(finish_requires_zero_budget [] { testChar with skill_points := 3 }).1 (by decide),
   (finish_requires_zero_budget [] testChar).2 (by decide)⟩

/- ## Claim C9: non-termination of the reroll loop -/

/-- Claim C9: when reroll_below is at least the number of sides, every
draw of randint(1, sides) is at most reroll_below, so the while loop of
_roll_single_die rerolls forever: for every fuel bound the embedded
loop fails to terminate, on every die stream in range. -/
theorem reroll_at_or_above_sides_never_terminates
    (sides t : Int) (exploding : Bool) (g : Nat → Int)
    (hs : 1 ≤ sides) (ht : sides ≤ t)
    (hg : ∀ i, 1 ≤ g i ∧ g i ≤ sides) :
    ∀ fuel pos total,
      rollSingleDie sides (some t) exploding g fuel pos total = none := by
  intro fuel
  induction fuel with
  | zero => intro pos total; rfl
  | succ n ih =>
      intro pos total
      have hroll : g pos ≤ t := le_trans (hg pos).2 ht
      simp only [rollSingleDie, Option.isSome_some, Option.getD_some]
      rw [if_pos ⟨trivial, hroll⟩]
      exact ih (pos + 1) total

/-- Concrete instance of reroll_at_or_above_sides_never_terminates. -/
theorem reroll_at_or_above_sides_never_terminates_witness :
    rollSingleDie 6 (some 6) false (fun _ => 3) 5 0 0 = none :=
  reroll_at_or_above_sides_never_terminates 6 6 false (fun _ => 3)
    (by decide) (by decide)
    (fun i => ⟨by show (1 : Int) ≤ 3; decide, by show (3 : Int) ≤ 6; decide⟩) 5 0 0

/- ## Claim C4: the age table -/

/-- Claim C4: outside [14, 57] apply_age_effects mutates nothing, and
inside [14, 57] exactly one branch guard of the age chain holds, so an
entry always applies. -/
theorem age_table_out_of_range_and_coverage :
    (∀ (c : Character) (bc : Nat → Nat) (g : Nat → Int) (lc : Nat → Nat)
        (pos : Nat),
      ¬ (14 ≤ c.age ∧ c.age ≤ 57) → apply_age_effects c bc g lc pos = c) ∧
    (∀ age : Int, 14 ≤ age → age ≤ 57 →
      ageConds.countP (fun p => p age) = 1 ∧ (ageEntry age).isSome = true) := by
  constructor
  · intro c bc g lc pos h
    simp [apply_age_effects, h]
  · intro age h1 h2
    interval_cases age <;> exact ⟨by decide, by decide⟩

/-- Concrete instance of age_table_out_of_range_and_coverage at ages 58
and 20. -/
theorem age_table_out_of_range_and_coverage_witness :
    apply_age_effects { testChar with age := 58 } (fun _ => 0) (fun _ => 1)
        (fun _ => 0) 0 = { testChar with age := 58 } ∧
    ageConds.countP (fun p => p 20) = 1 ∧ (ageEntry 20).isSome = true :=
  ⟨age_table_out_of_range_and_coverage.1 { testChar with age := 58 }
      (fun _ => 0) (fun _ => 1) (fun _ => 0) 0 (by decide),
   age_table_out_of_range_and_coverage.2 20 (by decide) (by decide)⟩

/- ## Claim C5: derived-stat formulas and single end recomputation -/

theorem derivedFields_setAttr (c : Character) (v : Int) (a : AttrName) :
    derivedFields (setAttr c v a) = derivedFields c := by
  cases a <;> rfl

theorem derivedFields_boost (c : Character) (ch : Nat) :
    derivedFields (applyRandomAttributeBoost c ch) = derivedFields c := by
  simp only [applyRandomAttributeBoost]
  split
  · rfl
  · exact derivedFields_setAttr _ _ _

theorem derivedFields_lose (c : Character) (ch : Nat) :
    derivedFields (loseRandomAttribute c ch) = derivedFields c := by
  simp only [loseRandomAttribute]
  split
  · rfl
  · exact derivedFields_setAttr _ _ _

theorem derivedFields_vigorTest (c : Character) (g : Nat → Int) (pos ch : Nat) :
    derivedFields (makeVigorTest c g pos ch).1 = derivedFields c := by
  simp only [makeVigorTest]
  split
  · exact derivedFields_lose _ _
  · rfl

theorem derivedFields_vigorTests (g : Nat → Int) (lc : Nat → Nat) :
    ∀ (n idx : Nat) (c : Character) (pos : Nat),
      derivedFields (applyVigorTests g lc n idx c pos).1 = derivedFields c := by
  intro n
  induction n with
  | zero => intro idx c pos; rfl
  | succ m ih =>
      intro idx c pos
      calc derivedFields (applyVigorTests g lc (m + 1) idx c pos).1
          = derivedFields (makeVigorTest c g pos (lc idx)).1 :=
            ih (idx + 1) (makeVigorTest c g pos (lc idx)).1
              (makeVigorTest c g pos (lc idx)).2
        _ = derivedFields c := derivedFields_vigorTest c g pos (lc idx)

theorem derivedFields_boosts (bc : Nat → Nat) :
    ∀ (n idx : Nat) (c : Character),
      derivedFields (applyAttributeBoosts bc n idx c) = derivedFields c := by
  intro n
  induction n with
  | zero => intro idx c; rfl
  | succ m ih =>
      intro idx c
      calc derivedFields (applyAttributeBoosts bc (m + 1) idx c)
          = derivedFields (applyRandomAttributeBoost c (bc idx)) :=
            ih (idx + 1) (applyRandomAttributeBoost c (bc idx))
        _ = derivedFields c := derivedFields_boost c (bc idx)

theorem derivedFields_agingCore (c : Character) (bc : Nat → Nat) (g : Nat → Int)
    (lc : Nat → Nat) (pos : Nat) :
    derivedFields (agingCore c bc g lc pos) = derivedFields c := by
  unfold agingCore
  cases h : ageEntry c.age with
  | none => rfl
  | some e =>
      obtain ⟨sp, boosts, tests⟩ := e
      calc derivedFields
            (applyVigorTests g lc tests 0
              (applyAttributeBoosts bc boosts 0
                { c with skill_points := c.skill_points + sp }) pos).1
          = derivedFields (applyAttributeBoosts bc boosts 0
              { c with skill_points := c.skill_points + sp }) :=
            derivedFields_vigorTests g lc tests 0 _ pos
        _ = derivedFields { c with skill_points := c.skill_points + sp } :=
            derivedFields_boosts bc boosts 0 _
        _ = derivedFields c := rfl

/-- Claim C5: after calculate_derived_stats, hit_points equals
max_hit_points equals floor of the attribute sum over 3, movement is
the floor average of vigor and finesse, and base slots equal vigor;
and an in-range aging event equals the aging body followed by exactly
one derived-stats recomputation (the body itself leaves every derived
field untouched), so the formulas see the post-test attributes. -/
theorem derived_stats_formulas_and_single_recompute :
    (∀ c : Character,
      (calculate_derived_stats c).hit_points
          = (calculate_derived_stats c).max_hit_points ∧
      (calculate_derived_stats c).max_hit_points
          = (c.vigor + c.finesse + c.smarts).fdiv 3 ∧
      (calculate_derived_stats c).movement = (c.vigor + c.finesse).fdiv 2 ∧
      (calculate_derived_stats c).base_inventory_slots = c.vigor) ∧
    (∀ (c : Character) (bc : Nat → Nat) (g : Nat → Int) (lc : Nat → Nat)
        (pos : Nat), 14 ≤ c.age → c.age ≤ 57 →
      apply_age_effects c bc g lc pos
          = calculate_derived_stats (agingCore c bc g lc pos) ∧
      derivedFields (agingCore c bc g lc pos) = derivedFields c ∧
      (apply_age_effects c bc g lc pos).max_hit_points
          = ((agingCore c bc g lc pos).vigor + (agingCore c bc g lc pos).finesse
              + (agingCore c bc g lc pos).smarts).fdiv 3 ∧
      (apply_age_effects c bc g lc pos).hit_points
          = (apply_age_effects c bc g lc pos).max_hit_points) := by
  constructor
  · intro c
    exact ⟨rfl, rfl, rfl, rfl⟩
  · intro c bc g lc pos h1 h2
    have happ : apply_age_effects c bc g lc pos
        = calculate_derived_stats (agingCore c bc g lc pos) := by
      unfold apply_age_effects
      rw [if_neg]
      simp [h1, h2]
    refine ⟨happ, derivedFields_agingCore c bc g lc pos, ?_, ?_⟩
    · rw [happ]; rfl
    · rw [happ]; rfl

/-- Concrete instance of derived_stats_formulas_and_single_recompute at
a vigor 10, finesse 10, smarts 10 character aged 25. -/
theorem derived_stats_formulas_and_single_recompute_witness :
    (calculate_derived_stats testChar).hit_points
        = (calculate_derived_stats testChar).max_hit_points ∧
    apply_age_effects testChar (fun _ => 0) (fun _ => 6) (fun _ => 0) 0
        = calculate_derived_stats
            (agingCore testChar (fun _ => 0) (fun _ => 6) (fun _ => 0) 0) :=
  ⟨(derived_stats_formulas_and_single_recompute.1 testChar).1,
   (derived_stats_formulas_and_single_recompute.2 testChar
      (fun _ => 0) (fun _ => 6) (fun _ => 0) 0 (by decide) (by decide)).1⟩

/- ## Claim C6: attributes stay within [3, 18] -/

theorem getAttr_setAttr (c : Character) (v : Int) (a b : AttrName) :
    getAttr (setAttr c v a) b = if b = a then v else getAttr c b := by
  cases a <;> cases b <;> simp [getAttr, setAttr]

theorem getD_mem_of_lt {α : Type} (l : List α) (i : Nat) (d : α)
    (h : i < l.length) : l.getD i d ∈ l := by
  induction l generalizing i with
  | nil => simp at h
  | cons x xs ih =>
      cases i with
      | zero => simp [List.getD]
      | succ j =>
          have : j < xs.length := by simpa using h
          simpa [List.getD] using Or.inr (by simpa [List.getD] using ih j this)

theorem attr_bounds_boost (c : Character) (ch : Nat)
    (h : ∀ a, 3 ≤ getAttr c a ∧ getAttr c a ≤ 18) :
    ∀ a, 3 ≤ getAttr (applyRandomAttributeBoost c ch) a ∧
      getAttr (applyRandomAttributeBoost c ch) a ≤ 18 := by
  intro a
  simp only [applyRandomAttributeBoost]
  split
  · exact h a
  · next hne =>
      set available := attrNames.filter (fun x => decide (getAttr c x < 18)) with havail
      have hlen : 0 < available.length := by
        cases hl : available with
        | nil => rw [hl] at hne; simp at hne
        | cons x xs => simp [hl]
      have hmem : available.getD (ch % available.length) AttrName.vigor ∈ available :=
        getD_mem_of_lt _ _ _ (Nat.mod_lt _ hlen)
      set chosen := available.getD (ch % available.length) AttrName.vigor with hch
      have hlt : getAttr c chosen < 18 := by
        have := List.of_mem_filter hmem
        simpa using this
      rw [getAttr_setAttr]
      split
      · next heq =>
          subst heq
          have hc := h chosen
          exact ⟨by omega, by omega⟩
      · exact h a

theorem attr_bounds_lose (c : Character) (ch : Nat)
    (h : ∀ a, 3 ≤ getAttr c a ∧ getAttr c a ≤ 18) :
    ∀ a, 3 ≤ getAttr (loseRandomAttribute c ch) a ∧
      getAttr (loseRandomAttribute c ch) a ≤ 18 := by
  intro a
  simp only [loseRandomAttribute]
  split
  · exact h a
  · next hne =>
      set available := attrNames.filter (fun x => decide (getAttr c x > 3)) with havail
      have hlen : 0 < available.length := by
        cases hl : available with
        | nil => rw [hl] at hne; simp at hne
        | cons x xs => simp [hl]
      have hmem : available.getD (ch % available.length) AttrName.vigor ∈ available :=
        getD_mem_of_lt _ _ _ (Nat.mod_lt _ hlen)
      set chosen := available.getD (ch % available.length) AttrName.vigor with hch
      have hgt : getAttr c chosen > 3 := by
        have := List.of_mem_filter hmem
        simpa using this
      rw [getAttr_setAttr]
      split
      · next heq =>
          subst heq
          have hc := h chosen
          exact ⟨by omega, by omega⟩
      · exact h a

/-- Claim C6: starting from attributes in [3, 18], any sequence of
random attribute boosts and vigor-test attribute losses keeps every
attribute in [3, 18]: boosts pick only among attributes below 18 and
losses only among attributes above 3, and are no-ops when none
qualify. -/
theorem attribute_bounds_preserved (c : Character) (steps : List AgeChange)
    (h : ∀ a, 3 ≤ getAttr c a ∧ getAttr c a ≤ 18) :
    ∀ a, 3 ≤ getAttr (applyAgeChanges c steps) a ∧
      getAttr (applyAgeChanges c steps) a ≤ 18 := by
  induction steps generalizing c with
  | nil => exact h
  | cons s rest ih =>
      cases s with
      | boost ch => exact ih (applyRandomAttributeBoost c ch) (attr_bounds_boost c ch h)
      | lose ch => exact ih (loseRandomAttribute c ch) (attr_bounds_lose c ch h)

/-- Concrete instance of attribute_bounds_preserved: one boost and one
loss applied to the test character keep vigor in [3, 18]. -/
theorem attribute_bounds_preserved_witness :
    3 ≤ getAttr (applyAgeChanges testChar [AgeChange.boost 0, AgeChange.lose 1])
          AttrName.vigor ∧
    getAttr (applyAgeChanges testChar [AgeChange.boost 0, AgeChange.lose 1])
          AttrName.vigor ≤ 18 :=
  attribute_bounds_preserved testChar [AgeChange.boost 0, AgeChange.lose 1]
    (fun a => by cases a <;> exact ⟨by decide, by decide⟩) AttrName.vigor

/- ## Claim C3: vigor tests are sequential and stateful -/

/-- Claim C3: in an aging batch the i-th vigor test rolls
max(1, floor((vigor - 10) / 2) + 1) d6 computed from the current vigor,
passes exactly when some die shows 5 or 6, on failure decrements one
attribute currently above 3 (chosen among exactly those, a no-op when
none qualify), and the batch threads the updated state into the next
test. -/
theorem vigor_tests_sequential_stateful
    (c : Character) (g : Nat → Int) (pos : Nat) (lc : Nat → Nat) (n idx : Nat)
    (hg : ∀ i, 1 ≤ g i ∧ g i ≤ 6) :
    ((makeVigorTest c g pos (lc idx)).2
        = pos + (max 1 ((c.vigor - 10).fdiv 2 + 1)).toNat) ∧
    ((∃ i, i < (max 1 ((c.vigor - 10).fdiv 2 + 1)).toNat ∧
        (g (pos + i) = 5 ∨ g (pos + i) = 6)) →
      (makeVigorTest c g pos (lc idx)).1 = c) ∧
    ((∀ i, i < (max 1 ((c.vigor - 10).fdiv 2 + 1)).toNat →
        g (pos + i) ≠ 5 ∧ g (pos + i) ≠ 6) →
      (makeVigorTest c g pos (lc idx)).1 = loseRandomAttribute c (lc idx)) ∧
    (∀ ch,
      ((attrNames.filter (fun a => getAttr c a > 3)).isEmpty = true →
        loseRandomAttribute c ch = c) ∧
      ((attrNames.filter (fun a => getAttr c a > 3)).isEmpty = false →
        ∃ a, getAttr c a > 3 ∧
          loseRandomAttribute c ch = setAttr c (getAttr c a - 1) a)) ∧
    (applyVigorTests g lc (n + 1) idx c pos
        = applyVigorTests g lc n (idx + 1)
            (makeVigorTest c g pos (lc idx)).1 (makeVigorTest c g pos (lc idx)).2) := by
  refine ⟨?_, ?_, ?_, ?_, rfl⟩
  · simp only [makeVigorTest, get_attribute_modifier]
    split <;> rfl
  · rintro ⟨i, hi, hv⟩
    have h5 : (5 : Int) ≤ g (pos + i) := by rcases hv with h | h <;> omega
    have hm : g (pos + i) ∈
        (List.range (max 1 ((c.vigor - 10).fdiv 2 + 1)).toNat).map
          (fun j => g (pos + j)) :=
      List.mem_map.mpr ⟨i, List.mem_range.mpr hi, rfl⟩
    have hmf : g (pos + i) ∈
        ((List.range (max 1 ((c.vigor - 10).fdiv 2 + 1)).toNat).map
          (fun j => g (pos + j))).filter (fun r => r ≥ 5) :=
      List.mem_filter.mpr ⟨hm, by simpa using h5⟩
    simp only [makeVigorTest, get_attribute_modifier]
    rw [if_neg]
    intro hemp
    rw [List.isEmpty_iff] at hemp
    rw [hemp] at hmf
    simp at hmf
  · intro hall
    have hfil :
        ((List.range (max 1 ((c.vigor - 10).fdiv 2 + 1)).toNat).map
          (fun j => g (pos + j))).filter (fun r => r ≥ 5) = [] := by
      rw [List.filter_eq_nil_iff]
      intro x hx
      obtain ⟨j, hj, hxe⟩ := List.mem_map.mp hx
      obtain ⟨hne5, hne6⟩ := hall j (List.mem_range.mp hj)
      have := (hg (pos + j)).2
      simp only [decide_eq_true_eq]
      omega
    simp only [makeVigorTest, get_attribute_modifier]
    rw [if_pos]
    rw [hfil]
    rfl
  · intro ch
    constructor
    · intro hemp
      simp only [loseRandomAttribute]
      rw [if_pos hemp]
    · intro hne
      simp only [loseRandomAttribute]
      rw [if_neg (by simp [hne])]
      set available := attrNames.filter (fun x => decide (getAttr c x > 3)) with havail
      have hlen : 0 < available.length := by
        cases hl : available with
        | nil => rw [hl] at hne; simp at hne
        | cons x xs => simp [hl]
      have hmem : available.getD (ch % available.length) AttrName.vigor ∈ available :=
        getD_mem_of_lt _ _ _ (Nat.mod_lt _ hlen)
      refine ⟨available.getD (ch % available.length) AttrName.vigor, ?_, rfl⟩
      have := List.of_mem_filter hmem
      simpa using this

/-- Concrete instance of vigor_tests_sequential_stateful at the test
character: one die is rolled at vigor 10 and a constant stream of 2s
fails the test. -/
theorem vigor_tests_sequential_stateful_witness :
    (makeVigorTest testChar (fun _ => 2) 0 0).2
        = 0 + (max 1 ((testChar.vigor - 10).fdiv 2 + 1)).toNat ∧
    (makeVigorTest testChar (fun _ => 2) 0 0).1
        = loseRandomAttribute testChar 0 :=
  ⟨(vigor_tests_sequential_stateful testChar (fun _ => 2) 0 (fun _ => 0) 0 0
      (fun i => ⟨by show (1 : Int) ≤ 2; decide, by show (2 : Int) ≤ 6; decide⟩)).1,
   (vigor_tests_sequential_stateful testChar (fun _ => 2) 0 (fun _ => 0) 0 0
      (fun i => ⟨by show (1 : Int) ≤ 2; decide, by show (2 : Int) ≤ 6; decide⟩)).2.2.1
      (fun i hi => ⟨by show (2 : Int) ≠ 5; decide, by show (2 : Int) ≠ 6; decide⟩)⟩

/- ## Claim C7: roll_dice contract -/

/-- Claim C7: on a valid configuration roll_dice returns the per-die
totals, keeps them sorted descending with the first drop_highest and
last drop_lowest removed, the kept list has length
num_dice - drop_lowest - drop_highest, and result is the kept sum plus
modifier; it raises ValueError exactly when num_dice <= 0, sides <= 0
or drop_lowest + drop_highest >= num_dice. -/
theorem roll_dice_valid_and_invalid
    (num_dice sides : Int) (dl dh : Nat) (modifier : Int) (g : Nat → Int) :
    (0 < num_dice → 0 < sides → (dl : Int) + dh < num_dice →
      (roll_dice num_dice sides dl dh modifier g).map RollResult.rolls
          = .ok ((List.range num_dice.toNat).map g) ∧
      (roll_dice num_dice sides dl dh modifier g).map RollResult.kept_rolls
          = .ok (specKeptRolls ((List.range num_dice.toNat).map g) dl dh) ∧
      (roll_dice num_dice sides dl dh modifier g).map
            (fun r => r.kept_rolls.length)
          = .ok (num_dice.toNat - dl - dh) ∧
      (roll_dice num_dice sides dl dh modifier g).map RollResult.result
          = .ok ((specKeptRolls ((List.range num_dice.toNat).map g) dl dh).sum
              + modifier) ∧
      (sortDescend ((List.range num_dice.toNat).map g)).Sorted (· ≥ ·) ∧
      (sortDescend ((List.range num_dice.toNat).map g)).Perm
          ((List.range num_dice.toNat).map g)) ∧
    ((num_dice ≤ 0 ∨ sides ≤ 0 ∨ (dl : Int) + dh ≥ num_dice) ↔
      isErrorResult (roll_dice num_dice sides dl dh modifier g) = true) := by
  constructor
  · intro hn hsid hd
    have e1 : ¬ num_dice ≤ 0 := by omega
    have e2 : ¬ sides ≤ 0 := by omega
    have e3 : ¬ (dl : Int) + dh ≥ num_dice := by omega
    have hNlen : ((List.range num_dice.toNat).map g).length = num_dice.toNat := by
      simp
    have hslen : (sortDescend ((List.range num_dice.toNat).map g)).length
        = num_dice.toNat := by
      simp [sortDescend, List.length_insertionSort]
    have hdlt : dl + dh < num_dice.toNat := by omega
    have hkept :
        (if dl > 0 then
          ((sortDescend ((List.range num_dice.toNat).map g)).drop dh).take
            ((sortDescend ((List.range num_dice.toNat).map g)).length - dl - dh)
        else (sortDescend ((List.range num_dice.toNat).map g)).drop dh)
          = specKeptRolls ((List.range num_dice.toNat).map g) dl dh := by
      by_cases hdl : dl > 0
      · rw [if_pos hdl]
        simp [specKeptRolls, hslen, hNlen]
      · rw [if_neg hdl]
        have hdl0 : dl = 0 := by omega
        subst hdl0
        rw [specKeptRolls, hNlen]
        rw [List.take_of_length_le]
        rw [List.length_drop, hslen]
        omega
    simp only [roll_dice, if_neg e1, if_neg e2, if_neg e3]
    refine ⟨rfl, ?_, ?_, ?_, ?_, ?_⟩
    · simp only [Except.map, hkept]
    · simp only [Except.map, hkept]
      have : (specKeptRolls ((List.range num_dice.toNat).map g) dl dh).length
          = num_dice.toNat - dl - dh := by
        rw [specKeptRolls, hNlen]
        rw [List.length_take, List.length_drop, hslen]
        omega
      simp [this]
    · simp only [Except.map, hkept]
    · have h := List.sorted_insertionSort (fun a b : Int => a ≥ b)
        ((List.range num_dice.toNat).map g)
      simpa [sortDescend, List.Sorted] using h
    · exact List.perm_insertionSort _ _
  · constructor
    · intro h
      rcases h with h | h | h
      · simp [roll_dice, if_pos h, isErrorResult]
      · by_cases h1 : num_dice ≤ 0
        · simp [roll_dice, if_pos h1, isErrorResult]
        · simp [roll_dice, if_neg h1, if_pos h, isErrorResult]
      · by_cases h1 : num_dice ≤ 0
        · simp [roll_dice, if_pos h1, isErrorResult]
        · by_cases h2 : sides ≤ 0
          · simp [roll_dice, if_neg h1, if_pos h2, isErrorResult]
          · simp [roll_dice, if_neg h1, if_neg h2, if_pos h, isErrorResult]
    · intro h
      by_contra hcon
      push_neg at hcon
      obtain ⟨h1, h2, h3⟩ := hcon
      have e1 : ¬ num_dice ≤ 0 := by omega
      have e2 : ¬ sides ≤ 0 := by omega
      have e3 : ¬ (dl : Int) + dh ≥ num_dice := by omega
      simp [roll_dice, if_neg e1, if_neg e2, if_neg e3, isErrorResult] at h

/-- Concrete instance of roll_dice_valid_and_invalid: 4d6 drop lowest
on the rolls 3, 6, 1, 4 keeps 6, 4, 3, and zero dice is rejected. -/
theorem roll_dice_valid_and_invalid_witness :
    (roll_dice 4 6 1 0 0 (fun i => [3, 6, 1, 4].getD i 0)).map RollResult.kept_rolls
        = .ok (specKeptRolls ((List.range (4 : Int).toNat).map
            (fun i => [3, 6, 1, 4].getD i 0)) 1 0) ∧
    (roll_dice 4 6 1 0 0 (fun i => [3, 6, 1, 4].getD i 0)).map
          (fun r => r.kept_rolls.length)
        = .ok ((4 : Int).toNat - 1 - 0) ∧
    isErrorResult (roll_dice 0 6 0 0 0 (fun _ => 1)) = true :=
  ⟨((roll_dice_valid_and_invalid 4 6 1 0 0 (fun i => [3, 6, 1, 4].getD i 0)).1
      (by decide) (by decide) (by decide)).2.1,
   ((roll_dice_valid_and_invalid 4 6 1 0 0 (fun i => [3, 6, 1, 4].getD i 0)).1
      (by decide) (by decide) (by decide)).2.2.1,
   (roll_dice_valid_and_invalid 0 6 0 0 0 (fun _ => 1)).2.mp
      (Or.inl (by decide))⟩

/- ## Claim C10: frame property of add_item and remove_item -/

theorem invLookup_invUpdate_self (l : List (String × Int)) (k : String)
    (v q0 : Int) (h : invLookup l k = some q0) :
    invLookup (invUpdate l k v) k = some v := by
  induction l with
  | nil => simp [invLookup] at h
  | cons x rest ih =>
      obtain ⟨a, b⟩ := x
      by_cases hak : a = k
      · simp [invLookup, invUpdate, hak]
      · simp only [invLookup, invUpdate, if_neg hak] at h ⊢
        exact ih h

theorem invLookup_invUpdate_ne (l : List (String × Int)) (k : String)
    (v : Int) (k' : String) (h : k' ≠ k) :
    invLookup (invUpdate l k v) k' = invLookup l k' := by
  induction l with
  | nil => rfl
  | cons x rest ih =>
      obtain ⟨a, b⟩ := x
      by_cases hak : a = k
      · subst hak
        simp [invLookup, invUpdate, Ne.symm h]
      · simp only [invUpdate, if_neg hak, invLookup]
        by_cases hak' : a = k'
        · simp [hak']
        · simp [hak', ih]

theorem invLookup_append_self (l : List (String × Int)) (k : String) (v : Int)
    (h : invLookup l k = none) : invLookup (l ++ [(k, v)]) k = some v := by
  induction l with
  | nil => simp [invLookup]
  | cons x rest ih =>
      obtain ⟨a, b⟩ := x
      by_cases hak : a = k
      · simp [invLookup, hak] at h
      · simp only [invLookup, if_neg hak] at h
        simp only [List.cons_append, invLookup, if_neg hak]
        exact ih h

theorem invLookup_append_ne (l : List (String × Int)) (k : String) (v : Int)
    (k' : String) (h : k' ≠ k) :
    invLookup (l ++ [(k, v)]) k' = invLookup l k' := by
  induction l with
  | nil => simp [invLookup, Ne.symm h]
  | cons x rest ih =>
      obtain ⟨a, b⟩ := x
      by_cases hak' : a = k'
      · simp [invLookup, hak']
      · simp only [List.cons_append, invLookup, if_neg hak']
        exact ih

theorem invLookup_eq_none_of_not_mem (l : List (String × Int)) (k : String)
    (h : k ∉ l.map Prod.fst) : invLookup l k = none := by
  induction l with
  | nil => rfl
  | cons x rest ih =>
      obtain ⟨a, b⟩ := x
      simp only [List.map, List.mem_cons] at h
      push_neg at h
      simp only [invLookup]
      rw [if_neg (fun hh => h.1 hh.symm)]
      exact ih h.2

theorem invLookup_invErase_self (l : List (String × Int)) (k : String)
    (h : (l.map Prod.fst).Nodup) : invLookup (invErase l k) k = none := by
  induction l with
  | nil => rfl
  | cons x rest ih =>
      obtain ⟨a, b⟩ := x
      simp only [List.map, List.nodup_cons] at h
      by_cases hak : a = k
      · subst hak
        simp only [invErase, if_pos rfl]
        exact invLookup_eq_none_of_not_mem rest a h.1
      · simp only [invErase, if_neg hak, invLookup, if_neg hak]
        exact ih h.2

theorem invLookup_invErase_ne (l : List (String × Int)) (k k' : String)
    (h : k' ≠ k) : invLookup (invErase l k) k' = invLookup l k' := by
  induction l with
  | nil => rfl
  | cons x rest ih =>
      obtain ⟨a, b⟩ := x
      by_cases hak : a = k
      · subst hak
        simp [invErase, invLookup, Ne.symm h]
      · simp only [invErase, if_neg hak, invLookup]
        by_cases hak' : a = k'
        · simp [hak']
        · simp [hak', ih]

/-- Claim C10: for an item that is neither a backpack nor saddlebags, a
failed add or remove changes nothing, and a successful add or remove
changes only the quantity entry of that item: every other field of the
character, and every other inventory entry, is unchanged. -/
theorem non_container_add_remove_frame
    (c : Character) (item : String) (q : Int)
    (hq : 1 ≤ q)
    (hb : nameHasKeyword item "backpack" = false)
    (hsd : nameHasKeyword item "saddlebags" = false)
    (hnd : (c.inventory.map Prod.fst).Nodup) :
    ((add_item c item q).2 = false → (add_item c item q).1 = c) ∧
    ((remove_item c item q).2 = false → (remove_item c item q).1 = c) ∧
    ((add_item c item q).2 = true →
      (add_item c item q).1
          = { c with inventory := (add_item c item q).1.inventory } ∧
      invLookup (add_item c item q).1.inventory item
          = some ((invLookup c.inventory item).getD 0 + q) ∧
      ∀ k, k ≠ item →
        invLookup (add_item c item q).1.inventory k = invLookup c.inventory k) ∧
    ((remove_item c item q).2 = true →
      (remove_item c item q).1
          = { c with inventory := (remove_item c item q).1.inventory } ∧
      (∃ q0, invLookup c.inventory item = some q0 ∧ q ≤ q0 ∧
        invLookup (remove_item c item q).1.inventory item
            = (if q0 - q ≤ 0 then none else some (q0 - q))) ∧
      ∀ k, k ≠ item →
        invLookup (remove_item c item q).1.inventory k
            = invLookup c.inventory k) := by
  refine ⟨?_, ?_, ?_, ?_⟩
  · intro hfail
    by_cases hca : can_add_item c item q
    · simp [add_item, hca] at hfail
    · simp [add_item, hca]
  · intro hfail
    cases hl : invLookup c.inventory item with
    | none => simp [remove_item, hl]
    | some q0 =>
        by_cases hlt : q0 < q
        · simp [remove_item, hl, hlt]
        · simp [remove_item, hl, hlt, hb, hsd] at hfail
  · intro hok
    by_cases hca : can_add_item c item q
    · cases hl : invLookup c.inventory item with
      | none =>
          have hadd : add_item c item q
              = ({ c with inventory := c.inventory ++ [(item, q)] }, true) := by
            simp [add_item, hca, hl, hb, hsd]
          rw [hadd]
          refine ⟨rfl, ?_, ?_⟩
          · simp only [Option.getD_none, zero_add]
            exact invLookup_append_self c.inventory item q hl
          · intro k hk
            exact invLookup_append_ne c.inventory item q k hk
      | some q0 =>
          have hadd : add_item c item q
              = ({ c with inventory := invUpdate c.inventory item (q0 + q) },
                  true) := by
            simp [add_item, hca, hl, hb, hsd]
          rw [hadd]
          refine ⟨rfl, ?_, ?_⟩
          · simp only [Option.getD_some]
            exact invLookup_invUpdate_self c.inventory item (q0 + q) q0 hl
          · intro k hk
            exact invLookup_invUpdate_ne c.inventory item (q0 + q) k hk
    · simp [add_item, hca] at hok
  · intro hok
    cases hl : invLookup c.inventory item with
    | none => simp [remove_item, hl] at hok
    | some q0 =>
        by_cases hlt : q0 < q
        · simp [remove_item, hl, hlt] at hok
        · by_cases hz : q0 - q ≤ 0
          · have hrem : remove_item c item q
                = ({ c with inventory := invErase c.inventory item }, true) := by
              simp [remove_item, hl, hlt, hb, hsd, hz]
            rw [hrem]
            refine ⟨rfl, ⟨q0, rfl, by omega, ?_⟩, ?_⟩
            · rw [if_pos hz]
              exact invLookup_invErase_self c.inventory item hnd
            · intro k hk
              exact invLookup_invErase_ne c.inventory item k hk
          · have hrem : remove_item c item q
                = ({ c with inventory := invUpdate c.inventory item (q0 - q) },
                    true) := by
              simp [remove_item, hl, hlt, hb, hsd, hz]
            rw [hrem]
            refine ⟨rfl, ⟨q0, rfl, by omega, ?_⟩, ?_⟩
            · rw [if_neg hz]
              exact invLookup_invUpdate_self c.inventory item (q0 - q) q0 hl
            · intro k hk
              exact invLookup_invUpdate_ne c.inventory item (q0 - q) k hk

/-- Concrete instance of non_container_add_remove_frame: adding one
rope to a character holding two ropes makes three, and leaves the bonus
slots alone. -/
theorem non_container_add_remove_frame_witness :
    invLookup
        (add_item { testChar with inventory := [("rope", 2)] } "rope" 1).1.inventory
        "rope"
      = some ((invLookup ({ testChar with inventory := [("rope", 2)] }).inventory
          "rope").getD 0 + 1) ∧
    (add_item { testChar with inventory := [("rope", 2)] } "rope" 1).1
      = { testChar with
            inventory :=
              (add_item { testChar with inventory := [("rope", 2)] } "rope" 1).1.inventory } := by
  have h := (non_container_add_remove_frame
      { testChar with inventory := [("rope", 2)] } "rope" 1
      (by decide) (by decide) (by decide) (by decide)).2.2.1 (by decide)
  exact ⟨h.2.1, h.1⟩
